import Mathlib

/-!
Verification of the constrained slot scheduler in ai_scheduler.py / app.py
(kegsss/todoist-AI-assistant), as a shallow embedding.

Time model: a clock time inside a day and an absolute timestamp are both
integers counting minutes; a calendar date is an integer day index, and
the Python expression tz.localize(datetime.combine(d, t)) becomes
combine d t = d * 1440 + t.  timedelta(minutes=m) is just m.
-/

namespace TodoistAssistant

/-- A busy interval: a (start, end) pair of timestamps in minutes,
matching the (datetime, datetime) tuples of ai_scheduler.py. -/
abbrev Interval := Int × Int

/-- Comparison by interval start, the sort key of line 63 of
ai_scheduler.py: sorted(intervals, key=lambda x: x[0]). -/
def startLE (a b : Interval) : Prop := a.1 ≤ b.1

instance : DecidableRel startLE := fun a b => inferInstanceAs (Decidable (a.1 ≤ b.1))

instance : IsTotal Interval startLE := ⟨fun a b => le_total a.1 b.1⟩

instance : IsTrans Interval startLE := ⟨fun _ _ _ h1 h2 => le_trans h1 h2⟩

/-- Python's sorted(..., key=lambda x: x[0]) is a stable sort by the first
component; insertion sort with the non-strict key comparison computes the
same (unique) stable ordering. -/
def sortByStart (l : List Interval) : List Interval :=
  List.insertionSort startLE l

/-- The scan of merge_intervals (ai_scheduler.py lines 64-69), written as a
recursion whose first argument is the interval currently sitting at the tail
of the accepted list: for each next input interval (s, e), if merged[-1][1] < s
the current interval is emitted and (s, e) becomes current, else the current
interval's end is raised to max(end, e). -/
def mergeRun : Interval → List Interval → List Interval
  | cur, [] => [cur]
  | cur, iv :: rest =>
    if cur.2 < iv.1 then cur :: mergeRun iv rest
    else mergeRun (cur.1, max cur.2 iv.2) rest

/-- merge_intervals (ai_scheduler.py lines 62-70): sort by start, then run
the merging scan. -/
def merge_intervals (intervals : List Interval) : List Interval :=
  match sortByStart intervals with
  | [] => []
  | iv :: rest => mergeRun iv rest

/-- Two half-open intervals [s1, e1) and [s2, e2) overlap. -/
def overlaps (a b : Interval) : Prop := max a.1 b.1 < min a.2 b.2

/-- Shape of a merged busy list: starts are nondecreasing and each interval
ends strictly before the next one starts. -/
abbrev MergedShape (l : List Interval) : Prop :=
  l.Pairwise (fun a b => a.1 ≤ b.1 ∧ a.2 < b.1)

theorem mergeRun_shape :
    ∀ (l : List Interval) (cur : Interval), l.Sorted startLE →
      (∀ x ∈ l, cur.1 ≤ x.1) →
      MergedShape (mergeRun cur l) ∧ ∀ y ∈ mergeRun cur l, cur.1 ≤ y.1 := by
  intro l
  induction l with
  | nil =>
    intro cur _ _
    refine ⟨List.pairwise_singleton _ _, ?_⟩
    intro y hy
    rw [mergeRun, List.mem_singleton] at hy
    exact hy ▸ le_refl _
  | cons x rest ih =>
    intro cur hs hc
    rw [List.sorted_cons] at hs
    obtain ⟨hx, hrest⟩ := hs
    rw [mergeRun]
    by_cases h : cur.2 < x.1
    · simp only [if_pos h]
      have hcx : ∀ z ∈ rest, x.1 ≤ z.1 := fun z hz => hx z hz
      obtain ⟨ihShape, ihGe⟩ := ih x hrest hcx
      constructor
      · refine List.pairwise_cons.mpr ⟨?_, ihShape⟩
        intro y hy
        have h1 : x.1 ≤ y.1 := ihGe y hy
        have h2 : cur.1 ≤ x.1 := hc x (List.mem_cons_self _ _)
        exact ⟨le_trans h2 h1, lt_of_lt_of_le h h1⟩
      · intro y hy
        rcases List.mem_cons.mp hy with h1 | h1
        · exact h1 ▸ le_refl _
        · exact le_trans (hc x (List.mem_cons_self _ _)) (ihGe y h1)
    · simp only [if_neg h]
      have hc2 : ∀ z ∈ rest, ((cur.1, max cur.2 x.2) : Interval).1 ≤ z.1 :=
        fun z hz => hc z (List.mem_cons_of_mem _ hz)
      obtain ⟨ihShape, ihGe⟩ := ih (cur.1, max cur.2 x.2) hrest hc2
      exact ⟨ihShape, ihGe⟩

theorem mergeRun_covers :
    ∀ (l : List Interval) (cur iv : Interval), l.Sorted startLE →
      (∀ x ∈ l, cur.1 ≤ x.1) → (iv = cur ∨ iv ∈ l) →
      ∃ c ∈ mergeRun cur l, c.1 ≤ iv.1 ∧ iv.2 ≤ c.2 := by
  intro l
  induction l with
  | nil =>
    intro cur iv _ _ hiv
    rcases hiv with h | h
    · exact ⟨cur, by rw [mergeRun]; exact List.mem_singleton_self _,
        h ▸ le_refl _, h ▸ le_refl _⟩
    · exact absurd h (List.not_mem_nil _)
  | cons x rest ih =>
    intro cur iv hs hc hiv
    rw [List.sorted_cons] at hs
    obtain ⟨hx, hrest⟩ := hs
    rw [mergeRun]
    by_cases h : cur.2 < x.1
    · simp only [if_pos h]
      rcases hiv with h1 | h1
      · exact ⟨cur, List.mem_cons_self _ _, h1 ▸ le_refl _, h1 ▸ le_refl _⟩
      · obtain ⟨c, hcmem, hcov⟩ := ih x iv hrest (fun z hz => hx z hz)
          (by rcases List.mem_cons.mp h1 with h2 | h2
              · exact Or.inl h2
              · exact Or.inr h2)
        exact ⟨c, List.mem_cons_of_mem _ hcmem, hcov⟩
    · simp only [if_neg h]
      have hc2 : ∀ z ∈ rest, ((cur.1, max cur.2 x.2) : Interval).1 ≤ z.1 :=
        fun z hz => hc z (List.mem_cons_of_mem _ hz)
      rcases hiv with h1 | h1
      · obtain ⟨c, hcmem, hcov1, hcov2⟩ :=
          ih (cur.1, max cur.2 x.2) (cur.1, max cur.2 x.2) hrest hc2 (Or.inl rfl)
        exact ⟨c, hcmem, h1 ▸ hcov1, h1 ▸ le_trans (le_max_left _ _) hcov2⟩
      · rcases List.mem_cons.mp h1 with h2 | h2
        · obtain ⟨c, hcmem, hcov1, hcov2⟩ :=
            ih (cur.1, max cur.2 x.2) (cur.1, max cur.2 x.2) hrest hc2 (Or.inl rfl)
          refine ⟨c, hcmem, ?_, ?_⟩
          · exact h2 ▸ le_trans hcov1 (hc x (List.mem_cons_self _ _))
          · exact h2 ▸ le_trans (le_max_right cur.2 x.2) hcov2
        · exact ih (cur.1, max cur.2 x.2) iv hrest hc2 (Or.inr h2)

theorem merge_intervals_shape (l : List Interval) : MergedShape (merge_intervals l) := by
  rw [merge_intervals]
  have hs : (sortByStart l).Sorted startLE := List.sorted_insertionSort startLE l
  cases h : sortByStart l with
  | nil => exact List.Pairwise.nil
  | cons iv rest =>
    rw [h, List.sorted_cons] at hs
    exact (mergeRun_shape rest iv hs.2 (fun x hx => hs.1 x hx)).1

theorem merge_intervals_covers (l : List Interval) (iv : Interval) (hiv : iv ∈ l) :
    ∃ c ∈ merge_intervals l, c.1 ≤ iv.1 ∧ iv.2 ≤ c.2 := by
  have hmem : iv ∈ sortByStart l := (List.perm_insertionSort startLE l).mem_iff.mpr hiv
  have hs : (sortByStart l).Sorted startLE := List.sorted_insertionSort startLE l
  rw [merge_intervals]
  cases h : sortByStart l with
  | nil => rw [h] at hmem; exact absurd hmem (List.not_mem_nil _)
  | cons x rest =>
    rw [h, List.sorted_cons] at hs
    rw [h] at hmem
    exact mergeRun_covers rest x iv hs.2 (fun z hz => hs.1 z hz)
      (by rcases List.mem_cons.mp hmem with h2 | h2
          · exact Or.inl h2
          · exact Or.inr h2)

theorem mergeRun_of_shape :
    ∀ (l : List Interval) (cur : Interval), MergedShape (cur :: l) →
      mergeRun cur l = cur :: l := by
  intro l
  induction l with
  | nil => intro cur _; rw [mergeRun]
  | cons x rest ih =>
    intro cur hshape
    have hlt : cur.2 < x.1 :=
      ((List.pairwise_cons.mp hshape).1 x (List.mem_cons_self _ _)).2
    rw [mergeRun, if_pos hlt, ih x hshape.of_cons]

theorem merge_intervals_of_shape (l : List Interval) (h : MergedShape l) :
    merge_intervals l = l := by
  have hsorted : l.Sorted startLE := h.imp (fun hab => hab.1)
  have hsort : sortByStart l = l := List.Sorted.insertionSort_eq hsorted
  rw [merge_intervals, hsort]
  cases l with
  | nil => rfl
  | cons iv rest => exact mergeRun_of_shape rest iv h

/-- C6: the output of merge_intervals is sorted by start and pairwise
non-overlapping, and merge_intervals is idempotent: running it on its own
output returns that output unchanged. -/
theorem claim_C6_merge_sorted_disjoint_idempotent (l : List Interval) :
    (merge_intervals l).Sorted startLE ∧
    (merge_intervals l).Pairwise (fun a b => ¬ overlaps a b) ∧
    merge_intervals (merge_intervals l) = merge_intervals l := by
  have hshape := merge_intervals_shape l
  refine ⟨hshape.imp (fun hab => hab.1), ?_, merge_intervals_of_shape _ hshape⟩
  refine hshape.imp ?_
  intro a b hab hov
  have h1 : b.1 < a.2 :=
    lt_of_le_of_lt (le_max_right a.1 b.1) (lt_of_lt_of_le hov (min_le_left a.2 b.2))
  exact absurd hab.2 (not_lt.mpr (le_of_lt h1))

/-- C3 counterexample: merge_intervals fuses two back-to-back intervals
09:00-10:00 and 10:00-11:00 (minutes 540-600 and 600-660) into the single
block 09:00-11:00 instead of keeping them distinct. -/
theorem claim_C3_counterexample :
    merge_intervals [(540, 600), (600, 660)] = [(540, 660)] ∧
    merge_intervals [(540, 600), (600, 660)] ≠ [(540, 600), (600, 660)] := by
  decide

/-- C3 amended: merge_intervals treats two intervals that meet at an exact
shared boundary (first.end = second.start) as overlapping and fuses them:
the merge branch fires whenever the next start is not strictly greater than
the accepted end (merged[-1][1] < s is false when they are equal). -/
theorem claim_C3_amended_boundary_fuses (s1 e1 e2 : Int) (h : s1 ≤ e1) :
    merge_intervals [(s1, e1), (e1, e2)] = [(s1, max e1 e2)] := by
  have hsort : sortByStart [(s1, e1), (e1, e2)] = [(s1, e1), (e1, e2)] := by
    rw [sortByStart, List.insertionSort, List.insertionSort, List.insertionSort,
      List.orderedInsert, List.orderedInsert]
    simp only [if_pos (show startLE (s1, e1) (e1, e2) from h)]
  rw [merge_intervals, hsort]
  show mergeRun (s1, e1) [(e1, e2)] = [(s1, max e1 e2)]
  simp only [mergeRun, lt_irrefl, if_false]

/-- C3 amended, witness at a concrete input. -/
theorem claim_C3_amended_witness :
    merge_intervals [(0, 10), (10, 20)] = [(0, max 10 20)] :=
  claim_C3_amended_boundary_fuses 0 10 20 (by decide)

/-- Minutes in a day; tz.localize(datetime.combine(d, t)) becomes d * 1440 + t. -/
def combine (d t : Int) : Int := d * 1440 + t

/-- The configuration globals consumed by the placement loop of
ai_scheduler.py (step 5, lines 317-367) plus the run-level values computed
before it.  max_tasks_per_day appears in the prompt sent to the suggestion
source (line 300) but is never read by the placement loop itself. -/
structure PlacerConfig where
  work_start : Int
  work_end : Int
  buffer : Int
  default_dur : Int
  max_tasks_per_day : Int
  today : Int
  now : Int
  date_strs : List Int

/-- One element of the AI response list assigns (line 303): the id is
required by the loop, due_date and duration_minutes are read with .get.
due_date = none models an absent or falsy value; some d a string parsing
to date d (a non-date string never occurs among the allowed dates, so it
behaves like a date outside them). -/
structure Proposal where
  id : String
  duration_minutes : Option Int
  due_date : Option Int

/-- The committed outcome for one proposal: the final date, start pointer
and duration of lines 359-363, with noGap recording whether the
degraded no-gap branch (lines 346-357) produced it. -/
structure Assignment where
  tid : String
  date : Int
  start : Int
  dur : Int
  noGap : Bool
deriving DecidableEq, Inhabited

/-- Initial pointer for a candidate date (lines 327-334 and again 349-356):
work start of the day, or for today at least 10 minutes past now. -/
def initPtr (cfg : PlacerConfig) (d : Int) : Int :=
  if d = cfg.today then max (combine d cfg.work_start) (cfg.now + 10)
  else combine d cfg.work_start

/-- The busy scan of lines 336-339: walk the day's busy list; break when the
candidate interval ends at least BUFFER before the busy start, else advance
the pointer past the busy end plus BUFFER. -/
def advancePtr (cfg : PlacerConfig) (dur : Int) : Int → List Interval → Int
  | ptr, [] => ptr
  | ptr, (bs, be) :: rest =>
    if ptr + dur ≤ bs - cfg.buffer then ptr
    else advancePtr cfg dur (max ptr (be + cfg.buffer)) rest

/-- The candidate-date loop of lines 324-344: first date whose scanned
pointer still fits before work_end wins. -/
def findSlot (cfg : PlacerConfig) (dur : Int) (busy : Int → List Interval) :
    List Int → Option (Int × Int)
  | [] => none
  | dd :: rest =>
    let ptr := advancePtr cfg dur (initPtr cfg dd) (busy dd)
    if ptr + dur ≤ combine dd cfg.work_end then some (dd, ptr)
    else findSlot cfg dur busy rest

/-- Line 321: candidates = [due_input] if due_input in date_strs else
date_strs.  An absent or falsy due_date gives the empty string, which is
never in date_strs. -/
def candidatesFor (cfg : PlacerConfig) (a : Proposal) : List Int :=
  match a.due_date with
  | some d => if d ∈ cfg.date_strs then [d] else cfg.date_strs
  | none => cfg.date_strs

/-- One iteration of the loop over assigns (lines 317-359): duration from
the proposal or the configured default (line 319), candidate scan, and on
total failure the logged no-gap fallback to date_strs[0] (lines 346-357). -/
def placeOne (cfg : PlacerConfig) (busy : Int → List Interval) (a : Proposal) :
    Assignment :=
  let dur := a.duration_minutes.getD cfg.default_dur
  match findSlot cfg dur busy (candidatesFor cfg a) with
  | some (dd, ptr) => ⟨a.id, dd, ptr, dur, false⟩
  | none =>
    let dd := cfg.date_strs.headI
    ⟨a.id, dd, initPtr cfg dd, dur, true⟩

/-- Lines 365-367: append the committed interval to the day's busy list and
re-merge.  The busy map is total with default [], matching
busy_slots.setdefault(dslot, []). -/
def commit (busy : Int → List Interval) (asg : Assignment) : Int → List Interval :=
  fun d =>
    if d = asg.date then merge_intervals (busy asg.date ++ [(asg.start, asg.start + asg.dur)])
    else busy d

/-- The whole placement loop (for a in assigns, lines 317-367): emit one
assignment per proposal, threading the busy map through commits. -/
def placeLoop (cfg : PlacerConfig) :
    List Proposal → (Int → List Interval) → List Assignment × (Int → List Interval)
  | [], busy => ([], busy)
  | a :: rest, busy =>
    let asg := placeOne cfg busy a
    let res := placeLoop cfg rest (commit busy asg)
    (asg :: res.1, res.2)

/-- An assignment's interval lies inside its day's work window. -/
def withinWindow (cfg : PlacerConfig) (a : Assignment) : Prop :=
  combine a.date cfg.work_start ≤ a.start ∧ a.start + a.dur ≤ combine a.date cfg.work_end

/-- Two assignments are separated by at least buf minutes. -/
def sepBy (buf : Int) (a b : Assignment) : Prop :=
  a.start + a.dur + buf ≤ b.start ∨ b.start + b.dur + buf ≤ a.start

theorem headI_mem_of_ne_nil {l : List Int} (h : l ≠ []) : l.headI ∈ l := by
  cases l with
  | nil => exact absurd rfl h
  | cons x xs => exact List.mem_cons_self _ _

theorem initPtr_ge (cfg : PlacerConfig) (d : Int) :
    combine d cfg.work_start ≤ initPtr cfg d := by
  unfold initPtr
  split
  · exact le_max_left _ _
  · exact le_refl _

theorem advancePtr_le (cfg : PlacerConfig) (dur : Int) :
    ∀ (l : List Interval) (ptr : Int), ptr ≤ advancePtr cfg dur ptr l := by
  intro l
  induction l with
  | nil => intro ptr; exact le_refl _
  | cons x rest ih =>
    intro ptr
    obtain ⟨bs, be⟩ := x
    simp only [advancePtr]
    split
    · exact le_refl _
    · exact le_trans (le_max_left _ _) (ih _)

theorem advancePtr_sep (cfg : PlacerConfig) (dur : Int) :
    ∀ (l : List Interval) (ptr : Int), MergedShape l →
      ∀ iv ∈ l, iv.2 + cfg.buffer ≤ advancePtr cfg dur ptr l ∨
        advancePtr cfg dur ptr l + dur + cfg.buffer ≤ iv.1 := by
  intro l
  induction l with
  | nil => intro ptr _ iv hiv; exact absurd hiv (List.not_mem_nil _)
  | cons x rest ih =>
    intro ptr hshape iv hiv
    obtain ⟨bs, be⟩ := x
    obtain ⟨hhead, htail⟩ := List.pairwise_cons.mp hshape
    simp only [advancePtr]
    by_cases hbr : ptr + dur ≤ bs - cfg.buffer
    · rw [if_pos hbr]
      rcases List.mem_cons.mp hiv with h1 | h1
      · right
        rw [h1]
        omega
      · right
        have h2 := hhead iv h1
        omega
    · rw [if_neg hbr]
      rcases List.mem_cons.mp hiv with h1 | h1
      · left
        have h2 : be + cfg.buffer ≤ max ptr (be + cfg.buffer) := le_max_right _ _
        have h3 := advancePtr_le cfg dur rest (max ptr (be + cfg.buffer))
        rw [h1]
        omega
      · exact ih (max ptr (be + cfg.buffer)) htail iv h1

theorem findSlot_eq_some (cfg : PlacerConfig) (dur : Int) (busy : Int → List Interval) :
    ∀ (cands : List Int) (dd ptr : Int),
      findSlot cfg dur busy cands = some (dd, ptr) →
      dd ∈ cands ∧ ptr = advancePtr cfg dur (initPtr cfg dd) (busy dd) ∧
        ptr + dur ≤ combine dd cfg.work_end := by
  intro cands
  induction cands with
  | nil => intro dd ptr h; exact absurd h (by simp [findSlot])
  | cons c rest ih =>
    intro dd ptr h
    simp only [findSlot] at h
    by_cases hc : advancePtr cfg dur (initPtr cfg c) (busy c) + dur ≤ combine c cfg.work_end
    · rw [if_pos hc] at h
      obtain ⟨h1, h2⟩ := Prod.mk.injEq .. ▸ Option.some.inj h
      subst h1
      subst h2
      exact ⟨List.mem_cons_self _ _, rfl, hc⟩
    · rw [if_neg hc] at h
      obtain ⟨h1, h2, h3⟩ := ih dd ptr h
      exact ⟨List.mem_cons_of_mem _ h1, h2, h3⟩

theorem candidatesFor_subset (cfg : PlacerConfig) (a : Proposal) :
    ∀ x ∈ candidatesFor cfg a, x ∈ cfg.date_strs := by
  intro x hx
  cases h : a.due_date with
  | none => simp only [candidatesFor, h] at hx; exact hx
  | some d =>
    simp only [candidatesFor, h] at hx
    by_cases hd : d ∈ cfg.date_strs
    · rw [if_pos hd] at hx
      rw [List.mem_singleton.mp hx]
      exact hd
    · rw [if_neg hd] at hx
      exact hx

theorem placeOne_cases (cfg : PlacerConfig) (busy : Int → List Interval) (a : Proposal) :
    (∃ dd ptr,
      findSlot cfg (a.duration_minutes.getD cfg.default_dur) busy (candidatesFor cfg a) =
        some (dd, ptr) ∧
      placeOne cfg busy a =
        ⟨a.id, dd, ptr, a.duration_minutes.getD cfg.default_dur, false⟩) ∨
    (findSlot cfg (a.duration_minutes.getD cfg.default_dur) busy (candidatesFor cfg a) =
        none ∧
      placeOne cfg busy a =
        ⟨a.id, cfg.date_strs.headI, initPtr cfg cfg.date_strs.headI,
          a.duration_minutes.getD cfg.default_dur, true⟩) := by
  cases h : findSlot cfg (a.duration_minutes.getD cfg.default_dur) busy
      (candidatesFor cfg a) with
  | none => exact Or.inr ⟨rfl, by simp only [placeOne, h]⟩
  | some p =>
    obtain ⟨dd, ptr⟩ := p
    exact Or.inl ⟨dd, ptr, rfl, by simp only [placeOne, h]⟩

theorem placeOne_tid (cfg : PlacerConfig) (busy : Int → List Interval) (a : Proposal) :
    (placeOne cfg busy a).tid = a.id := by
  rcases placeOne_cases cfg busy a with ⟨dd, ptr, _, heq⟩ | ⟨_, heq⟩ <;> rw [heq]

theorem placeOne_dur (cfg : PlacerConfig) (busy : Int → List Interval) (a : Proposal) :
    (placeOne cfg busy a).dur = a.duration_minutes.getD cfg.default_dur := by
  rcases placeOne_cases cfg busy a with ⟨dd, ptr, _, heq⟩ | ⟨_, heq⟩ <;> rw [heq]

theorem placeOne_start_ge (cfg : PlacerConfig) (busy : Int → List Interval) (a : Proposal) :
    combine (placeOne cfg busy a).date cfg.work_start ≤ (placeOne cfg busy a).start := by
  rcases placeOne_cases cfg busy a with ⟨dd, ptr, hfs, heq⟩ | ⟨_, heq⟩
  · obtain ⟨_, h2, _⟩ := findSlot_eq_some cfg _ busy _ dd ptr hfs
    rw [heq]
    show combine dd cfg.work_start ≤ ptr
    rw [h2]
    exact le_trans (initPtr_ge cfg dd) (advancePtr_le cfg _ _ _)
  · rw [heq]
    exact initPtr_ge cfg _

theorem placeOne_normal_end (cfg : PlacerConfig) (busy : Int → List Interval)
    (a : Proposal) (h : (placeOne cfg busy a).noGap = false) :
    (placeOne cfg busy a).start + (placeOne cfg busy a).dur ≤
      combine (placeOne cfg busy a).date cfg.work_end := by
  rcases placeOne_cases cfg busy a with ⟨dd, ptr, hfs, heq⟩ | ⟨_, heq⟩
  · obtain ⟨_, _, h3⟩ := findSlot_eq_some cfg _ busy _ dd ptr hfs
    rw [heq]
    exact h3
  · rw [heq] at h
    exact Bool.noConfusion h

theorem placeOne_normal_sep (cfg : PlacerConfig) (busy : Int → List Interval)
    (a : Proposal) (hb : ∀ d, MergedShape (busy d))
    (h : (placeOne cfg busy a).noGap = false) :
    ∀ c ∈ busy (placeOne cfg busy a).date,
      c.2 + cfg.buffer ≤ (placeOne cfg busy a).start ∨
      (placeOne cfg busy a).start + (placeOne cfg busy a).dur + cfg.buffer ≤ c.1 := by
  rcases placeOne_cases cfg busy a with ⟨dd, ptr, hfs, heq⟩ | ⟨_, heq⟩
  · obtain ⟨_, h2, _⟩ := findSlot_eq_some cfg _ busy _ dd ptr hfs
    rw [heq]
    intro c hc
    show c.2 + cfg.buffer ≤ ptr ∨ ptr + (a.duration_minutes.getD cfg.default_dur) + cfg.buffer ≤ c.1
    rw [h2]
    exact advancePtr_sep cfg _ (busy dd) (initPtr cfg dd) (hb dd) c hc
  · rw [heq] at h
    exact Bool.noConfusion h

theorem placeOne_fallback (cfg : PlacerConfig) (busy : Int → List Interval)
    (a : Proposal) (h : (placeOne cfg busy a).noGap = true) :
    (placeOne cfg busy a).date = cfg.date_strs.headI ∧
    (placeOne cfg busy a).start = initPtr cfg cfg.date_strs.headI := by
  rcases placeOne_cases cfg busy a with ⟨dd, ptr, _, heq⟩ | ⟨_, heq⟩
  · rw [heq] at h
    exact Bool.noConfusion h
  · rw [heq]
    exact ⟨rfl, rfl⟩

theorem placeOne_date_mem (cfg : PlacerConfig) (busy : Int → List Interval)
    (a : Proposal) (hne : cfg.date_strs ≠ []) :
    (placeOne cfg busy a).date ∈ cfg.date_strs := by
  rcases placeOne_cases cfg busy a with ⟨dd, ptr, hfs, heq⟩ | ⟨_, heq⟩
  · obtain ⟨h1, _, _⟩ := findSlot_eq_some cfg _ busy _ dd ptr hfs
    rw [heq]
    exact candidatesFor_subset cfg a dd h1
  · rw [heq]
    exact headI_mem_of_ne_nil hne

theorem commit_shape (busy : Int → List Interval) (asg : Assignment)
    (hb : ∀ d, MergedShape (busy d)) : ∀ d, MergedShape (commit busy asg d) := by
  intro d
  unfold commit
  split
  · exact merge_intervals_shape _
  · exact hb d

theorem commit_cover_old (busy : Int → List Interval) (asg : Assignment) (d : Int)
    (c : Interval) (hc : c ∈ busy d) :
    ∃ c2 ∈ commit busy asg d, c2.1 ≤ c.1 ∧ c.2 ≤ c2.2 := by
  unfold commit
  split
  · rename_i h
    exact merge_intervals_covers _ c (List.mem_append_left _ (h ▸ hc))
  · exact ⟨c, hc, le_refl _, le_refl _⟩

theorem commit_cover_new (busy : Int → List Interval) (asg : Assignment) :
    ∃ c2 ∈ commit busy asg asg.date, c2.1 ≤ asg.start ∧ asg.start + asg.dur ≤ c2.2 := by
  unfold commit
  rw [if_pos rfl]
  exact merge_intervals_covers _ (asg.start, asg.start + asg.dur)
    (List.mem_append_right _ (List.mem_singleton_self _))

theorem placeLoop_cons_fst (cfg : PlacerConfig) (a : Proposal) (rest : List Proposal)
    (busy : Int → List Interval) :
    (placeLoop cfg (a :: rest) busy).1 =
      placeOne cfg busy a ::
        (placeLoop cfg rest (commit busy (placeOne cfg busy a))).1 := rfl

theorem placeLoop_cons_snd (cfg : PlacerConfig) (a : Proposal) (rest : List Proposal)
    (busy : Int → List Interval) :
    (placeLoop cfg (a :: rest) busy).2 =
      (placeLoop cfg rest (commit busy (placeOne cfg busy a))).2 := rfl

theorem placeLoop_inv (cfg : PlacerConfig) :
    ∀ (props : List Proposal) (busy : Int → List Interval),
      (∀ d, MergedShape (busy d)) →
      (∀ x ∈ (placeLoop cfg props busy).1, x.noGap = false → withinWindow cfg x) ∧
      (∀ x ∈ (placeLoop cfg props busy).1, x.noGap = false →
        ∀ c ∈ busy x.date,
          c.2 + cfg.buffer ≤ x.start ∨ x.start + x.dur + cfg.buffer ≤ c.1) ∧
      (∀ d, MergedShape ((placeLoop cfg props busy).2 d)) ∧
      (placeLoop cfg props busy).1.Pairwise
        (fun x y => x.date = y.date → y.noGap = false → sepBy cfg.buffer x y) := by
  intro props
  induction props with
  | nil =>
    intro busy hb
    exact ⟨fun x hx => absurd hx (List.not_mem_nil _),
      fun x hx => absurd hx (List.not_mem_nil _), hb, List.Pairwise.nil⟩
  | cons a rest ih =>
    intro busy hb
    have hb1 : ∀ d, MergedShape (commit busy (placeOne cfg busy a) d) :=
      commit_shape busy _ hb
    obtain ⟨ih1, ih2, ih3, ih4⟩ := ih (commit busy (placeOne cfg busy a)) hb1
    rw [placeLoop_cons_fst, placeLoop_cons_snd]
    refine ⟨?_, ?_, ih3, ?_⟩
    · intro x hx hng
      rcases List.mem_cons.mp hx with h1 | h1
      · subst h1
        exact ⟨placeOne_start_ge cfg busy a, placeOne_normal_end cfg busy a hng⟩
      · exact ih1 x h1 hng
    · intro x hx hng c hc
      rcases List.mem_cons.mp hx with h1 | h1
      · subst h1
        exact placeOne_normal_sep cfg busy a hb hng c hc
      · obtain ⟨c2, hc2mem, hcov1, hcov2⟩ :=
          commit_cover_old busy (placeOne cfg busy a) x.date c hc
        rcases ih2 x h1 hng c2 hc2mem with hsep | hsep
        · left; omega
        · right; omega
    · refine List.pairwise_cons.mpr ⟨?_, ih4⟩
      intro y hy hdate hyng
      obtain ⟨c2, hc2mem, hcov1, hcov2⟩ := commit_cover_new busy (placeOne cfg busy a)
      rw [hdate] at hc2mem
      rcases ih2 y hy hyng c2 hc2mem with hsep | hsep
      · exact Or.inl (by omega)
      · exact Or.inr (by omega)

theorem placeLoop_mem_ex (cfg : PlacerConfig) :
    ∀ (props : List Proposal) (busy : Int → List Interval),
      ∀ x ∈ (placeLoop cfg props busy).1,
        ∃ b a, a ∈ props ∧ x = placeOne cfg b a := by
  intro props
  induction props with
  | nil => intro busy x hx; exact absurd hx (List.not_mem_nil _)
  | cons a rest ih =>
    intro busy x hx
    rw [placeLoop_cons_fst] at hx
    rcases List.mem_cons.mp hx with h1 | h1
    · exact ⟨busy, a, List.mem_cons_self _ _, h1⟩
    · obtain ⟨b, a2, ha2, hx2⟩ := ih _ x h1
      exact ⟨b, a2, List.mem_cons_of_mem _ ha2, hx2⟩

theorem placeLoop_map_tid (cfg : PlacerConfig) :
    ∀ (props : List Proposal) (busy : Int → List Interval),
      (placeLoop cfg props busy).1.map Assignment.tid = props.map Proposal.id := by
  intro props
  induction props with
  | nil => intro busy; rfl
  | cons a rest ih =>
    intro busy
    rw [placeLoop_cons_fst, List.map_cons, List.map_cons, placeOne_tid, ih]

theorem placeOne_today_floor (cfg : PlacerConfig) (busy : Int → List Interval)
    (a : Proposal) (h : (placeOne cfg busy a).date = cfg.today) :
    max (combine cfg.today cfg.work_start) (cfg.now + 10) ≤
      (placeOne cfg busy a).start := by
  rcases placeOne_cases cfg busy a with ⟨dd, ptr, hfs, heq⟩ | ⟨_, heq⟩
  · obtain ⟨_, h2, _⟩ := findSlot_eq_some cfg _ busy _ dd ptr hfs
    have hd : dd = cfg.today := by rw [heq] at h; exact h
    rw [heq]
    show max (combine cfg.today cfg.work_start) (cfg.now + 10) ≤ ptr
    rw [h2, ← hd]
    have hinit : initPtr cfg dd = max (combine dd cfg.work_start) (cfg.now + 10) := by
      rw [initPtr, if_pos hd]
    rw [← hinit]
    exact advancePtr_le cfg _ _ _
  · have hd : cfg.date_strs.headI = cfg.today := by rw [heq] at h; exact h
    rw [heq]
    show max (combine cfg.today cfg.work_start) (cfg.now + 10) ≤
      initPtr cfg cfg.date_strs.headI
    rw [initPtr, if_pos hd, hd]

/-- Shared concrete inputs for witnesses and counterexamples. -/
def busyEmpty : Int → List Interval := fun _ => []

def cfgA : PlacerConfig :=
  { work_start := 540, work_end := 1020, buffer := 5, default_dur := 60,
    max_tasks_per_day := 2, today := -1, now := 0, date_strs := [1] }

def propsA : List Proposal := [⟨"t1", some 60, some 1⟩, ⟨"t2", some 60, some 1⟩]

def propsC1 : List Proposal := [⟨"t1", some 480, some 1⟩, ⟨"t2", some 480, some 1⟩]

/-- C1 as stated is false: with a single allowed work day 09:00-17:00 and two
proposals of 480 minutes each, the second placement takes the no-gap fallback
and lands exactly on top of the first, on the same date. -/
theorem claim_C1_counterexample :
    ¬ (placeLoop cfgA propsC1 busyEmpty).1.Pairwise
        (fun x y => x.date ≠ y.date ∨
          x.start + x.dur ≤ y.start ∨ y.start + y.dur ≤ x.start) := by
  decide

/-- C1 amended: restricted to assignments not produced by the no-gap fallback,
the invariant holds: every such assignment lies within its day's work window,
and any later such assignment is separated by at least the configured buffer
from every other assignment on the same date; only a no-gap fallback
assignment can overlap or overrun the window.  Hypothesis: every busy list of
the input map has merged shape, as lines 279-280 and 314-315 of
ai_scheduler.py establish before the loop runs. -/
theorem claim_C1_amended_normal_invariant (cfg : PlacerConfig) (props : List Proposal)
    (busy : Int → List Interval) (hb : ∀ d, MergedShape (busy d)) :
    (∀ x ∈ (placeLoop cfg props busy).1, x.noGap = false → withinWindow cfg x) ∧
    (placeLoop cfg props busy).1.Pairwise
      (fun x y => x.date = y.date → y.noGap = false → sepBy cfg.buffer x y) :=
  ⟨(placeLoop_inv cfg props busy hb).1, (placeLoop_inv cfg props busy hb).2.2.2⟩

/-- C1 amended, witness at a concrete input. -/
theorem claim_C1_witness :
    (∀ x ∈ (placeLoop cfgA propsA busyEmpty).1, x.noGap = false → withinWindow cfgA x) ∧
    (placeLoop cfgA propsA busyEmpty).1.Pairwise
      (fun x y => x.date = y.date → y.noGap = false → sepBy cfgA.buffer x y) :=
  claim_C1_amended_normal_invariant cfgA propsA busyEmpty (fun _ => List.Pairwise.nil)

def cfgC2 : PlacerConfig :=
  { work_start := 540, work_end := 1020, buffer := 5, default_dur := 60,
    max_tasks_per_day := 1, today := -1, now := 0, date_strs := [1, 2] }

/-- C2 counterexample: with max_tasks_per_day = 1 the placement loop still
commits two assignments to the same day, because the loop never reads the
cap; it only appears in the prompt sent to the suggestion source. -/
theorem claim_C2_counterexample :
    cfgC2.max_tasks_per_day = 1 ∧
    ((placeLoop cfgC2 propsA busyEmpty).1.filter
      (fun x => decide (x.date = 1))).length = 2 := by
  decide

/-- C2 amended: the placer enforces no per-day cap (max_tasks_per_day is only
forwarded to the suggestion source); a candidate day is skipped only when the
scanned start would overrun work_end.  No task is ever dropped: the output
has exactly one assignment per proposal, in order; and a task no candidate
date admits is assigned to the first allowed date at that day's initial
pointer, flagged no-gap, regardless of conflict. -/
theorem claim_C2_amended_no_drop (cfg : PlacerConfig) (props : List Proposal)
    (busy : Int → List Interval) :
    (placeLoop cfg props busy).1.map Assignment.tid = props.map Proposal.id ∧
    ∀ x ∈ (placeLoop cfg props busy).1, x.noGap = true →
      x.date = cfg.date_strs.headI ∧ x.start = initPtr cfg cfg.date_strs.headI := by
  refine ⟨placeLoop_map_tid cfg props busy, ?_⟩
  intro x hx hng
  obtain ⟨b, a, _, rfl⟩ := placeLoop_mem_ex cfg props busy x hx
  exact placeOne_fallback cfg b a hng

def cfgW2 : PlacerConfig :=
  { work_start := 540, work_end := 1020, buffer := 5, default_dur := 60,
    max_tasks_per_day := 2, today := -1, now := 0, date_strs := [1] }

def propsW2 : List Proposal := [⟨"w", some 600, some 1⟩]

/-- C2 amended, witness: a 600-minute task in a 480-minute window takes the
no-gap fallback to the first allowed date. -/
theorem claim_C2_witness :
    (placeLoop cfgW2 propsW2 busyEmpty).1.map Assignment.tid =
      propsW2.map Proposal.id ∧
    ((placeLoop cfgW2 propsW2 busyEmpty).1.headI.date = cfgW2.date_strs.headI ∧
      (placeLoop cfgW2 propsW2 busyEmpty).1.headI.start =
        initPtr cfgW2 cfgW2.date_strs.headI) :=
  ⟨(claim_C2_amended_no_drop cfgW2 propsW2 busyEmpty).1,
    (claim_C2_amended_no_drop cfgW2 propsW2 busyEmpty).2
      ((placeLoop cfgW2 propsW2 busyEmpty).1.headI) (by decide) (by decide)⟩

def propC4 : Proposal := ⟨"t4", some (-5), some 1⟩

/-- C4 counterexample: a proposed duration_minutes of -5 is used as is, since
line 319 substitutes the default only when the key is absent; the resulting
duration is not positive. -/
theorem claim_C4_counterexample :
    propC4.duration_minutes = some (-5) ∧
    (placeOne cfgA busyEmpty propC4).dur = -5 := by
  decide

/-- C4 amended: the resulting date is always a member of the allowed date set
(given it is nonempty), but the duration is replaced by
default_task_duration_minutes only when the proposal omits it; a present
non-positive value passes through unchanged. -/
theorem claim_C4_amended_date_in_set (cfg : PlacerConfig) (busy : Int → List Interval)
    (a : Proposal) (hne : cfg.date_strs ≠ []) :
    (placeOne cfg busy a).date ∈ cfg.date_strs ∧
    (placeOne cfg busy a).dur = a.duration_minutes.getD cfg.default_dur :=
  ⟨placeOne_date_mem cfg busy a hne, placeOne_dur cfg busy a⟩

def propW4 : Proposal := ⟨"w4", none, some 1⟩

/-- C4 amended, witness at a concrete input. -/
theorem claim_C4_witness :
    (placeOne cfgA busyEmpty propW4).date ∈ cfgA.date_strs ∧
    (placeOne cfgA busyEmpty propW4).dur =
      propW4.duration_minutes.getD cfgA.default_dur :=
  claim_C4_amended_date_in_set cfgA busyEmpty propW4 (by decide)

def cfgC5 : PlacerConfig :=
  { work_start := 540, work_end := 1020, buffer := 5, default_dur := 60,
    max_tasks_per_day := 2, today := -1, now := 0, date_strs := [1, 2] }

def busyC5 : Int → List Interval := fun d => if d = 1 then [(1980, 2430)] else []

def propC5 : Proposal := ⟨"t5", some 60, none⟩

/-- C5 counterexample: on day 1 (09:00-17:00, busy 09:00-16:30) the candidate
start 16:35 plus 60 minutes exceeds work_end; instead of clamping the end to
work_end and committing a partial placement on day 1, the placer moves the
task to day 2 with its full duration. -/
theorem claim_C5_counterexample :
    placeOne cfgC5 busyC5 propC5 = ⟨"t5", 2, 3420, 60, false⟩ ∧
    (placeOne cfgC5 busyC5 propC5).date ≠ 1 := by
  decide

/-- C5 amended: the placer never clamps an end to work_end.  When
candidateStart + duration exceeds workEnd the date is rejected and the next
candidate tried, so a committed non-fallback assignment always fits entirely
before work_end; when every candidate is rejected, the no-gap fallback
commits the full duration at the first allowed date's initial pointer,
possibly past work_end. -/
theorem claim_C5_amended_no_clamp (cfg : PlacerConfig) (busy : Int → List Interval)
    (a : Proposal) :
    ((placeOne cfg busy a).noGap = false →
      (placeOne cfg busy a).start + (placeOne cfg busy a).dur ≤
        combine (placeOne cfg busy a).date cfg.work_end) ∧
    ((placeOne cfg busy a).noGap = true →
      (placeOne cfg busy a).date = cfg.date_strs.headI ∧
      (placeOne cfg busy a).start = initPtr cfg cfg.date_strs.headI) :=
  ⟨placeOne_normal_end cfg busy a, placeOne_fallback cfg busy a⟩

def propW5 : Proposal := ⟨"w5", some 600, some 1⟩

/-- C5 amended, witness at concrete inputs covering both branches. -/
theorem claim_C5_witness :
    ((placeOne cfgA busyEmpty propW4).start + (placeOne cfgA busyEmpty propW4).dur ≤
      combine (placeOne cfgA busyEmpty propW4).date cfgA.work_end) ∧
    (placeOne cfgW2 busyEmpty propW5).date = cfgW2.date_strs.headI :=
  ⟨(claim_C5_amended_no_clamp cfgA busyEmpty propW4).1 (by decide),
    ((claim_C5_amended_no_clamp cfgW2 busyEmpty propW5).2 (by decide)).1⟩

/-- C9: an assignment whose chosen date is today starts no earlier than
max(today's work_start, now + 10 minutes), on the normal path and on the
no-gap fallback path alike. -/
theorem claim_C9_today_floor (cfg : PlacerConfig) (props : List Proposal)
    (busy : Int → List Interval) :
    ∀ x ∈ (placeLoop cfg props busy).1, x.date = cfg.today →
      max (combine cfg.today cfg.work_start) (cfg.now + 10) ≤ x.start := by
  intro x hx hdate
  obtain ⟨b, a, _, rfl⟩ := placeLoop_mem_ex cfg props busy x hx
  exact placeOne_today_floor cfg b a hdate

def cfgW9 : PlacerConfig :=
  { work_start := 540, work_end := 1020, buffer := 5, default_dur := 60,
    max_tasks_per_day := 2, today := 1, now := 0, date_strs := [1] }

def propsW9 : List Proposal := [⟨"w9", some 60, some 1⟩]

/-- C9 witness at a concrete input. -/
theorem claim_C9_witness :
    max (combine cfgW9.today cfgW9.work_start) (cfgW9.now + 10) ≤
      (placeLoop cfgW9 propsW9 busyEmpty).1.headI.start :=
  claim_C9_today_floor cfgW9 propsW9 busyEmpty
    ((placeLoop cfgW9 propsW9 busyEmpty).1.headI) (by decide) (by decide)

/-- The priority decay of ai_scheduler.py lines 288-290:
decay = max(0, (today - c).days) * priority_decay_per_day and
new_prio = max(1, orig - decay). -/
def decayedPriority (orig ageDays decayPerDay : Int) : Int :=
  max 1 (orig - max 0 ageDays * decayPerDay)

/-- The dict appended by get_tasks_needing_scheduling (lines 254-259):
id, content, priority, created_at.  created_at is modelled as an optional
creation date (a day index); none when the field is missing. -/
structure SchedTask where
  id : String
  content : String
  priority : Int
  created_at : Option Int
deriving DecidableEq

/-- One iteration of the decay loop (lines 284-293): tasks without a
created_at are left alone; the in-place update when new_prio differs from
orig gives the same result as always storing new_prio. -/
def applyDecay (today decayPerDay : Int) (t : SchedTask) : SchedTask :=
  match t.created_at with
  | none => t
  | some c => { t with priority := decayedPriority t.priority (today - c) decayPerDay }

/-- C7: the decayed priority equals max(1, p - max(0, today - c) * decayPerDay);
it is always at least 1, antitone in age when decayPerDay is positive, and age 0
decays nothing (for a priority already at least 1); and the decay loop stores
exactly this value for every task carrying a creation date. -/
theorem claim_C7_decay_formula (p a d : Int) :
    decayedPriority p a d = max 1 (p - max 0 a * d) ∧
    1 ≤ decayedPriority p a d ∧
    (∀ a2, a < a2 → 0 < d → decayedPriority p a2 d ≤ decayedPriority p a d) ∧
    (1 ≤ p → decayedPriority p 0 d = p) ∧
    (∀ (today : Int) (t : SchedTask) (c : Int), t.created_at = some c →
      (applyDecay today d t).priority = decayedPriority t.priority (today - c) d) := by
  refine ⟨rfl, le_max_left _ _, ?_, ?_, ?_⟩
  · intro a2 ha hd
    have hm : max 0 a ≤ max 0 a2 := max_le_max (le_refl 0) (le_of_lt ha)
    have hmul : max 0 a * d ≤ max 0 a2 * d :=
      mul_le_mul_of_nonneg_right hm (le_of_lt hd)
    unfold decayedPriority
    omega
  · intro hp
    rw [decayedPriority, max_self, zero_mul, sub_zero]
    exact max_eq_right hp
  · intro today t c hc
    simp only [applyDecay, hc]

/-- C7 witness: the spec scenario (priority 3, age 10 days, decay 1 per day)
and the age-0 case. -/
theorem claim_C7_witness :
    1 ≤ decayedPriority 3 10 1 ∧
    decayedPriority 3 10 1 ≤ decayedPriority 3 0 1 ∧
    decayedPriority 3 0 1 = 3 :=
  ⟨(claim_C7_decay_formula 3 10 1).2.1,
    (claim_C7_decay_formula 3 0 1).2.2.1 10 (by decide) (by decide),
    (claim_C7_decay_formula 3 0 1).2.2.2.1 (by decide)⟩

/-- The stale-event deletion loop of app.py lines 224-229, followed by the
scheduler launch of line 234.  Deletions run in list order with no
try/except around them: an exception from one delete propagates out of the
handler, so events after the first failure are not deleted and the launch
on line 234 does not happen.  fails says which deletions raise; the result
is (events actually deleted, whether the scheduler subprocess was
launched). -/
def deleteLoop (fails : String → Bool) : List String → List String × Bool
  | [] => ([], true)
  | ev :: rest =>
    if fails ev then ([], false)
    else
      let res := deleteLoop fails rest
      (ev :: res.1, res.2)

/-- The tail of the item:updated branch of todoist_webhook: delete every
calendar event tagged with the task id, then launch the scheduler. -/
def webhookStaleCleanup (fails : String → Bool) (existing : List String) :
    List String × Bool :=
  deleteLoop fails existing

theorem deleteLoop_mem_ok (fails : String → Bool) :
    ∀ (l : List String), ∀ ev ∈ (deleteLoop fails l).1, fails ev = false := by
  intro l
  induction l with
  | nil => intro ev hev; exact absurd hev (List.not_mem_nil _)
  | cons x rest ih =>
    intro ev hev
    by_cases hx : fails x
    · simp only [deleteLoop, if_pos hx] at hev
      exact absurd hev (List.not_mem_nil _)
    · simp only [deleteLoop, if_neg hx] at hev
      rcases List.mem_cons.mp hev with h1 | h1
      · rw [h1]
        exact Bool.eq_false_iff.mpr hx
      · exact ih ev h1

theorem deleteLoop_fail_aborts (fails : String → Bool) :
    ∀ (l : List String), ∀ ev ∈ l, fails ev = true → (deleteLoop fails l).2 = false := by
  intro l
  induction l with
  | nil => intro ev hev; exact absurd hev (List.not_mem_nil _)
  | cons x rest ih =>
    intro ev hev hf
    by_cases hx : fails x
    · simp only [deleteLoop, if_pos hx]
    · simp only [deleteLoop, if_neg hx]
      rcases List.mem_cons.mp hev with h1 | h1
      · rw [h1] at hf
        exact absurd hf (Bool.eq_false_iff.mp (Bool.eq_false_iff.mpr hx))
      · exact ih ev h1 hf

theorem deleteLoop_all_ok (fails : String → Bool) :
    ∀ (l : List String), (∀ ev ∈ l, fails ev = false) → deleteLoop fails l = (l, true) := by
  intro l
  induction l with
  | nil => intro _; rfl
  | cons x rest ih =>
    intro h
    have hx : fails x = false := h x (List.mem_cons_self _ _)
    simp only [deleteLoop, hx, Bool.false_eq_true, if_false]
    rw [ih (fun ev hev => h ev (List.mem_cons_of_mem _ hev))]

/-- C8 counterexample: when deleting the first stale entry fails, the second
stale entry is not deleted and the scheduler launch is blocked; the failure
is fatal to the handler rather than handled independently. -/
theorem claim_C8_counterexample :
    (webhookStaleCleanup (fun e => e == "e1") ["e1", "e2"]).2 = false ∧
    "e2" ∉ (webhookStaleCleanup (fun e => e == "e1") ["e1", "e2"]).1 := by
  decide

/-- C8 amended: deletions are not handled independently: a failing delete
aborts the webhook handler, so the failing entry is never in the deleted
list and the scheduler launch is skipped; conversely, the handler deletes
every entry and launches the scheduler only when every delete succeeds. -/
theorem claim_C8_amended_failure_fatal (fails : String → Bool) (existing : List String) :
    (∀ ev ∈ existing, fails ev = true →
      (webhookStaleCleanup fails existing).2 = false ∧
      ev ∉ (webhookStaleCleanup fails existing).1) ∧
    ((∀ ev ∈ existing, fails ev = false) →
      webhookStaleCleanup fails existing = (existing, true)) := by
  constructor
  · intro ev hev hf
    refine ⟨deleteLoop_fail_aborts fails existing ev hev hf, ?_⟩
    intro hmem
    have := deleteLoop_mem_ok fails existing ev hmem
    rw [hf] at this
    exact Bool.noConfusion this
  · exact deleteLoop_all_ok fails existing

/-- C8 amended, witness at concrete inputs covering both branches. -/
theorem claim_C8_witness :
    ((webhookStaleCleanup (fun e => e == "b") ["a", "b"]).2 = false ∧
      "b" ∉ (webhookStaleCleanup (fun e => e == "b") ["a", "b"]).1) ∧
    webhookStaleCleanup (fun _ => false) ["a", "b"] = (["a", "b"], true) :=
  ⟨(claim_C8_amended_failure_fatal (fun e => e == "b") ["a", "b"]).1 "b"
      (by decide) (by decide),
    (claim_C8_amended_failure_fatal (fun _ => false) ["a", "b"]).2 (fun _ _ => rfl)⟩

/-- A raw Todoist task as read by get_tasks_needing_scheduling
(ai_scheduler.py lines 202-259).  recurring, checked and completedAt record
the truthiness of the corresponding dict fields; dueDateTime is the parsed
due.dateTime in minutes, none when absent. -/
structure TodoistTask where
  id : String
  content : String
  priority : Int
  created_at : Option Int
  recurring : Bool
  checked : Bool
  completedAt : Bool
  dueDateTime : Option Int
  duration : Option Int

/-- start.date() for a timestamp in minutes. -/
def dateOf (m : Int) : Int := m / 1440

/-- The overlap test of line 238: (bs <= start < be) or (bs < end <= be) or
(start <= bs and end >= be). -/
def conflictsWith (s e : Int) (iv : Interval) : Bool :=
  decide ((iv.1 ≤ s ∧ s < iv.2) ∨ (iv.1 < e ∧ e ≤ iv.2) ∨ (s ≤ iv.1 ∧ e ≥ iv.2))

/-- Line 232: t.get("duration") or default — a missing or zero (falsy)
duration falls back to default_task_duration_minutes. -/
def taskDuration (defaultDur : Int) (t : TodoistTask) : Int :=
  match t.duration with
  | some v => if v = 0 then defaultDur else v
  | none => defaultDur

/-- needs_update of lines 214-244: overdue tasks and tasks conflicting with
a busy calendar slot need rescheduling, as does any task without a
due.dateTime.  The continue of lines 220-221 excludes the task, which for
the returned list is the same as needs_update staying False. -/
def needsUpdate (now defaultDur : Int) (avail : List Int)
    (busyOf : Int → List Interval) (t : TodoistTask) : Bool :=
  match t.dueDateTime with
  | some start =>
    if start < now ∧ (t.checked = true ∨ t.completedAt = true) then false
    else if start < now then true
    else if dateOf start ∈ avail then
      (busyOf (dateOf start)).any
        (conflictsWith start (start + taskDuration defaultDur t))
    else false
  | none => true

/-- get_tasks_needing_scheduling (lines 190-261), restricted to its pure
filtering: recurring tasks (line 205) and checked or completed tasks
(line 207) are skipped before any due-date handling; the rest are kept
exactly when needs_update holds, projected to the dict of lines 254-259. -/
def get_tasks_needing_scheduling (now defaultDur : Int) (avail : List Int)
    (busyOf : Int → List Interval) (tasks_raw : List TodoistTask) : List SchedTask :=
  tasks_raw.filterMap (fun t =>
    if t.recurring = true then none
    else if t.checked = true ∨ t.completedAt = true then none
    else if needsUpdate now defaultDur avail busyOf t = true then
      some ⟨t.id, t.content, t.priority, t.created_at⟩
    else none)

/-- C10: every task returned by get_tasks_needing_scheduling comes from a
source task whose recurring flag is falsy and whose checked flag and
completed_at field are both unset. -/
theorem claim_C10_no_recurring_completed (now defaultDur : Int) (avail : List Int)
    (busyOf : Int → List Interval) (tasks_raw : List TodoistTask) (o : SchedTask)
    (ho : o ∈ get_tasks_needing_scheduling now defaultDur avail busyOf tasks_raw) :
    ∃ t ∈ tasks_raw, t.recurring = false ∧ t.checked = false ∧ t.completedAt = false ∧
      o = ⟨t.id, t.content, t.priority, t.created_at⟩ := by
  obtain ⟨t, ht, hf⟩ := List.mem_filterMap.mp ho
  refine ⟨t, ht, ?_⟩
  by_cases h1 : t.recurring = true
  · rw [if_pos h1] at hf
    exact Option.noConfusion hf
  · rw [if_neg h1] at hf
    by_cases h2 : t.checked = true ∨ t.completedAt = true
    · rw [if_pos h2] at hf
      exact Option.noConfusion hf
    · rw [if_neg h2] at hf
      by_cases h3 : needsUpdate now defaultDur avail busyOf t = true
      · rw [if_pos h3] at hf
        refine ⟨Bool.eq_false_iff.mpr h1, ?_, ?_, (Option.some.inj hf).symm⟩
        · exact Bool.eq_false_iff.mpr (fun hc => h2 (Or.inl hc))
        · exact Bool.eq_false_iff.mpr (fun hc => h2 (Or.inr hc))
      · rw [if_neg h3] at hf
        exact Option.noConfusion hf

def taskW10 : TodoistTask :=
  ⟨"tid", "write report", 4, some 5, false, false, false, none, none⟩

/-- C10 witness: a non-recurring, non-completed task without a due date is
returned by the filter. -/
theorem claim_C10_witness :
    ∃ t ∈ [taskW10], t.recurring = false ∧ t.checked = false ∧ t.completedAt = false ∧
      (⟨"tid", "write report", 4, some 5⟩ : SchedTask) =
        ⟨t.id, t.content, t.priority, t.created_at⟩ :=
  claim_C10_no_recurring_completed 0 60 [] (fun _ => []) [taskW10]
    ⟨"tid", "write report", 4, some 5⟩ (by decide)

end TodoistAssistant
